import Mathlib

/-!
Shallow embedding of the AMIT-EXPRESSO potentiometer library (`ATPOTS.h`,
`ATPOTS.cpp`) and proofs about it.

Modelling conventions:
* C `int`/`long` values are modelled as unbounded `ℤ` (the spec fixes no machine
  width and all quantities of interest stay far from any plausible width).
* C truncating integer division (used by Arduino `map`) is `Int.tdiv`.
* A C `byte` (`unsigned char`) produced by an `int` is reduction mod 256.
* The `float _deadZonePercent` is modelled as a rational number, so the
  `float`-to-`int` truncation in `_deadZoneFactor` becomes an exact floor.
* `analogRead` is an external collaborator: each call of `aRead`/`scan` takes
  the list of raw samples the loop would acquire as an explicit argument.
* The registered change handler is modelled by a flag (`hasHandler`, i.e.
  `_changeHandler != nullptr`) plus an explicit list of the `(newValue,
  oldValue)` invocations an operation performs; `Serial.write` becomes an
  explicit list of bytes emitted, in write order.
* The function-local `static int lastAverage` of `ATPOT::aRead` is state of
  the function (one cell per process, shared by every instance), so it is
  threaded explicitly through `aRead` and `scan`.
-/

/-- `MAX_ANALOG_POT_READING` from `ATPOTS.h`: the raw full-scale reading. -/
def MAX_ANALOG_POT_READING : ℤ := 1023

/-- Arduino `constrain(x, a, b)`: clamp `x` into `[a, b]`. -/
def constrain (x a b : ℤ) : ℤ := if x < a then a else if x > b then b else x

/-- Arduino `map(x, in_min, in_max, out_min, out_max)`: linear remap computed
with C truncating integer division. -/
def map (x inMin inMax outMin outMax : ℤ) : ℤ :=
  Int.tdiv ((x - inMin) * (outMax - outMin)) (inMax - inMin) + outMin

/-- Conversion of a C `int` to a `byte` (`unsigned char`): reduction mod 256
(`Int.emod` always yields the nonnegative representative). -/
def toByte (x : ℤ) : ℤ := x % 256

/-- The `_deadZoneFactor` computation shared by the `ATPOT` constructors and
`ATPOT::setDeadZone`: `MAX_ANALOG_POT_READING * _deadZonePercent / 100`,
evaluated in `float` and truncated to `int` in the source; with the percentage
as a rational (taken nonnegative) this is the floor `⌊1023 * p / 100⌋`, here
spelled out on the numerator and denominator of `p` so that it evaluates by
kernel reduction (`deadZoneFactorOf_eq_floor` below proves the two forms
equal). -/
def deadZoneFactorOf (p : ℚ) : ℤ :=
  (MAX_ANALOG_POT_READING * p.num) / ((100 * p.den : ℕ) : ℤ)

/-- State of one `ATPOT` instance (fields of the class in `ATPOTS.h`, with the
defaults given there).  `rawValue` is uninitialized in the source until the
first accepted scan; the claims never inspect it before then, so it carries an
arbitrary initial value here. -/
structure ATPOT where
  pin : ℤ
  minVal : ℤ := 0
  maxVal : ℤ := MAX_ANALOG_POT_READING
  lastReading : ℤ := -1
  deadZonePercent : ℚ := 0
  deadZoneFactor : ℤ := 0
  rawValue : ℤ := 0
  hasChanged : Bool := false
  hasHandler : Bool := false
  numReadings : ℤ := 10
  debounceThreshold : ℤ := 5
  deriving Repr, DecidableEq

/-- `ATPOT::ATPOT(byte pin, int minVal, int maxVal, float deadZonePercent)`. -/
def ATPOT.mk4 (pin mn mx : ℤ) (p : ℚ) : ATPOT :=
  { pin := pin, minVal := mn, maxVal := mx, deadZonePercent := p,
    deadZoneFactor := deadZoneFactorOf p }

/-- `ATPOT::setChangeHandler(handler)`: registers a (non-null) handler. -/
def ATPOT.setChangeHandler (p : ATPOT) : ATPOT := { p with hasHandler := true }

/-- `ATPOT::ATPOT(byte pin, int minVal, int maxVal, float deadZonePercent,
void (*handler)(byte, byte))`: as `mk4`, then `setChangeHandler(handler)`. -/
def ATPOT.mkWithHandler (pin mn mx : ℤ) (p : ℚ) : ATPOT :=
  (ATPOT.mk4 pin mn mx p).setChangeHandler

/-- `ATPOT::setNumReadings(int num)`. -/
def ATPOT.setNumReadings (p : ATPOT) (num : ℤ) : ATPOT := { p with numReadings := num }

/-- `ATPOT::setDebounceThreshold(int threshold)`. -/
def ATPOT.setDebounceThreshold (p : ATPOT) (threshold : ℤ) : ATPOT :=
  { p with debounceThreshold := threshold }

/-- `ATPOT::setDeadZone(float deadZonePercent)`: stores the percentage and
recomputes `_deadZoneFactor`. -/
def ATPOT.setDeadZone (p : ATPOT) (q : ℚ) : ATPOT :=
  { p with deadZonePercent := q, deadZoneFactor := deadZoneFactorOf q }

/-- One iteration of the sampling loop in `ATPOT::aRead`: accumulate the
running total and track the running minimum and maximum, exactly as the two
`if` statements in the source do. -/
def readStep (acc : ℤ × ℤ × ℤ) (r : ℤ) : ℤ × ℤ × ℤ :=
  (acc.1 + r,
   if r < acc.2.1 then r else acc.2.1,
   if r > acc.2.2 then r else acc.2.2)

/-- The sampling loop of `ATPOT::aRead` over the acquired samples, from the
source's initial values `total = 0`, `minVal = 1024`, `maxVal = -1`. -/
def readLoop (readings : List ℤ) : ℤ × ℤ × ℤ :=
  readings.foldl readStep (0, 1024, -1)

/-- The outlier-rejected average computed by `ATPOT::aRead` before debouncing:
`(total - (minVal + maxVal)) / (_numReadings - 2)` with C truncating
division. -/
def currentAverage (readings : List ℤ) : ℤ :=
  let t := readLoop readings
  Int.tdiv (t.1 - (t.2.1 + t.2.2)) ((readings.length : ℤ) - 2)

/-- `ATPOT::aRead()` with the function-static `lastAverage` passed in
explicitly; returns `(returned value, lastAverage after the call)`. -/
def aRead (lastAverage threshold : ℤ) (readings : List ℤ) : ℤ × ℤ :=
  let cur := currentAverage readings
  if |cur - lastAverage| < threshold then (lastAverage, lastAverage)
  else (cur, cur)

/-- `ATPOT::reset()`: clear `hasChanged`. -/
def ATPOT.reset (p : ATPOT) : ATPOT := { p with hasChanged := false }

/-- `ATPOT::changed(byte newValue, byte oldValue)`: set `hasChanged`, then, if
a handler is registered, invoke it and `reset()`.  Returns the new state and
the handler invocations performed. -/
def ATPOT.changed (p : ATPOT) (newValue oldValue : ℤ) : ATPOT × List (ℤ × ℤ) :=
  let p1 : ATPOT := { p with hasChanged := true }
  if p1.hasHandler then (p1.reset, [(newValue, oldValue)]) else (p1, [])

/-- The dead-zone compensation line of `ATPOT::scan`:
`constrain(map(val, _deadZoneFactor, MAX - _deadZoneFactor, 0, MAX), 0, MAX)`. -/
def compensate (d v : ℤ) : ℤ :=
  constrain
    (map v d (MAX_ANALOG_POT_READING - d) 0 MAX_ANALOG_POT_READING)
    0 MAX_ANALOG_POT_READING

/-- The full value computation of `ATPOT::scan` for an averaged reading `v`:
dead-zone compensation followed by
`map(val, 0, MAX_ANALOG_POT_READING, _minVal, _maxVal)`. -/
def scanValue (d mn mx v : ℤ) : ℤ :=
  map (compensate d v) 0 MAX_ANALOG_POT_READING mn mx

/-- Result of one `ATPOT::scan` call: instance state, the function-static
debounce state after the call, and the handler invocations performed. -/
structure PotScanOut where
  state : ATPOT
  lastAverage : ℤ
  handlerCalls : List (ℤ × ℤ)
  deriving Repr, DecidableEq

/-- `ATPOT::scan()`: average and debounce, compensate the dead zone, remap to
`[_minVal, _maxVal]`, and on a changed value record it and fire `changed` with
the new value and the previous `_lastReading`, both truncated to `byte`. -/
def ATPOT.scan (p : ATPOT) (lastAverage : ℤ) (readings : List ℤ) : PotScanOut :=
  let ar := aRead lastAverage p.debounceThreshold readings
  let val := compensate p.deadZoneFactor ar.1
  let newValue := map val 0 MAX_ANALOG_POT_READING p.minVal p.maxVal
  if newValue ≠ p.lastReading then
    let oldVal := toByte p.lastReading
    let p1 : ATPOT := { p with lastReading := newValue, rawValue := val }
    let c := p1.changed (toByte newValue) oldVal
    { state := c.1, lastAverage := ar.2, handlerCalls := c.2 }
  else
    { state := p, lastAverage := ar.2, handlerCalls := [] }

/-- State of one `ATMIDICCPOT` instance: the inherited `ATPOT` state plus the
fields of the subclass (`_mesg`, `_cc`, `_varr`, `_count`, `valueType`). -/
structure ATMIDICCPOT where
  pot : ATPOT
  mesg : ℤ := 0
  cc : ℤ := 0
  varr : List ℤ := []
  count : ℤ := 0
  valueType : Bool := false
  deriving Repr, DecidableEq

/-- `ATMIDICCPOT::INIT(byte ch, byte cc)`: plain pass-through mode;
`_mesg = 175 + constrain(ch, 1, 16)`. -/
def ATMIDICCPOT.INIT (m : ATMIDICCPOT) (ch cc : ℤ) : ATMIDICCPOT :=
  { m with valueType := false, mesg := 175 + constrain ch 1 16, cc := cc }

/-- `ATMIDICCPOT::INIT(byte ch, byte cc, byte* values, byte count)`: the
lookup-table overload (Lean does not overload names, hence the distinct
name). -/
def ATMIDICCPOT.INITtable (m : ATMIDICCPOT) (ch cc : ℤ) (values : List ℤ)
    (count : ℤ) : ATMIDICCPOT :=
  { m with mesg := 175 + constrain ch 1 16, cc := cc, count := count,
           varr := values, valueType := true }

/-- `ATMIDICCPOT::ATMIDICCPOT(byte pin, byte ch, byte cc)`: base subobject
`ATPOT{pin, 0, 127, 1}` then `INIT(ch, cc)`. -/
def ATMIDICCPOT.mk3 (pin ch cc : ℤ) : ATMIDICCPOT :=
  ATMIDICCPOT.INIT { pot := ATPOT.mk4 pin 0 127 1 } ch cc

/-- The lookup-table index of `ATMIDICCPOT::changed`:
`byte index = map(newValue, 0, 127, 0, _count - 1)` (the `map` result is
truncated to `byte` by the declaration). -/
def tableIndex (count newValue : ℤ) : ℤ := toByte (map newValue 0 127 0 (count - 1))

/-- The `_value` payload computed by `ATMIDICCPOT::changed`: the mapped value
itself, or in table mode the entry `_varr[index]`. -/
def midiPayload (m : ATMIDICCPOT) (newValue : ℤ) : ℤ :=
  if m.valueType then m.varr.getD (tableIndex m.count newValue).toNat 0 else newValue

/-- `ATMIDICCPOT::changed(byte newValue, byte oldValue)`: compute the payload,
write `_mesg`, `_cc`, `constrain(_value, 0, 127)` to the serial sink in that
order, then, if a handler is registered, invoke it with `(_value, oldValue)`
and `reset()`.  Returns `(state, bytes written in order, handler calls)`. -/
def ATMIDICCPOT.changed (m : ATMIDICCPOT) (newValue oldValue : ℤ) :
    ATMIDICCPOT × List ℤ × List (ℤ × ℤ) :=
  let v := midiPayload m newValue
  let bytes := [m.mesg, m.cc, constrain v 0 127]
  if m.pot.hasHandler then
    ({ m with pot := m.pot.reset }, bytes, [(v, oldValue)])
  else
    (m, bytes, [])

/-- Result of one `scan()` on an `ATMIDICCPOT`: state, debounce static after
the call, serial bytes written (in order), and handler invocations. -/
structure MidiScanOut where
  state : ATMIDICCPOT
  lastAverage : ℤ
  bytes : List ℤ
  handlerCalls : List (ℤ × ℤ)
  deriving Repr, DecidableEq

/-- The value `ATPOT::scan` computes on an `ATMIDICCPOT` before the change
test: debounced average of the batch, then dead-zone compensation and remap
with the instance's configuration. -/
def midiScanValue (m : ATMIDICCPOT) (lastAverage : ℤ) (readings : List ℤ) : ℤ :=
  scanValue m.pot.deadZoneFactor m.pot.minVal m.pot.maxVal
    (aRead lastAverage m.pot.debounceThreshold readings).1

/-- `ATPOT::scan()` executed on an `ATMIDICCPOT`: identical control flow, but
the virtual `changed` dispatches to the `ATMIDICCPOT` override. -/
def ATMIDICCPOT.scan (m : ATMIDICCPOT) (lastAverage : ℤ) (readings : List ℤ) :
    MidiScanOut :=
  let ar := aRead lastAverage m.pot.debounceThreshold readings
  let val := compensate m.pot.deadZoneFactor ar.1
  let newValue := map val 0 MAX_ANALOG_POT_READING m.pot.minVal m.pot.maxVal
  if newValue ≠ m.pot.lastReading then
    let oldVal := toByte m.pot.lastReading
    let m1 : ATMIDICCPOT :=
      { m with pot := { m.pot with lastReading := newValue, rawValue := val } }
    let c := m1.changed (toByte newValue) oldVal
    { state := c.1, lastAverage := ar.2, bytes := c.2.1, handlerCalls := c.2.2 }
  else
    { state := m, lastAverage := ar.2, bytes := [], handlerCalls := [] }

/-- The spec's description of dead-zone compensation: clamp the accepted
average into `[dead_zone_width, raw_full_scale - dead_zone_width]`, then
linearly remap that sub-range onto `[0, raw_full_scale]`.  Stated from the
spec's words, to be compared with `compensate`, which follows the source. -/
def specCompensate (d v : ℤ) : ℤ :=
  map (constrain v d (MAX_ANALOG_POT_READING - d))
    d (MAX_ANALOG_POT_READING - d) 0 MAX_ANALOG_POT_READING

/-- The spec's description of the full `scan` value computation: dead-zone
compensation as the spec words it, then a linear remap onto
`[output_min, output_max]`. -/
def specOutput (d mn mx v : ℤ) : ℤ :=
  map (specCompensate d v) 0 MAX_ANALOG_POT_READING mn mx

/-- Two `ATPOT` instances together with the single process-wide cell behind
the function-static `lastAverage` of `ATPOT::aRead`, which both share. -/
structure TwoPotWorld where
  potA : ATPOT
  potB : ATPOT
  sharedLastAverage : ℤ
  deriving Repr, DecidableEq

/-- Instance A scans: it reads and writes the shared debounce cell. -/
def TwoPotWorld.scanA (w : TwoPotWorld) (readings : List ℤ) : TwoPotWorld :=
  let o := w.potA.scan w.sharedLastAverage readings
  { w with potA := o.state, sharedLastAverage := o.lastAverage }

/-- Instance B scans: it reads and writes the same shared debounce cell. -/
def TwoPotWorld.scanB (w : TwoPotWorld) (readings : List ℤ) : TwoPotWorld :=
  let o := w.potB.scan w.sharedLastAverage readings
  { w with potB := o.state, sharedLastAverage := o.lastAverage }

/-- A concrete world with two freshly constructed full-range conditioners on
distinct channels and the shared debounce cell at its initial value 0. -/
def exampleWorld : TwoPotWorld :=
  { potA := ATPOT.mk4 0 0 1023 0, potB := ATPOT.mk4 1 0 1023 0, sharedLastAverage := 0 }

/-- A concrete adapter in pass-through mode with a registered handler, used to
evaluate the theorems on closed inputs: channel 1, controller 7, the fixed 1%
dead zone of the constructor. -/
def exampleMidiPot : ATMIDICCPOT :=
  let m := ATMIDICCPOT.mk3 0 1 7
  { m with pot := m.pot.setChangeHandler }

/-- A concrete adapter in table mode: channel 1, controller 7, lookup table
`[10, 20, 30, 40]`. -/
def exampleTablePot : ATMIDICCPOT :=
  (ATMIDICCPOT.mk3 0 1 7).INITtable 1 7 [10, 20, 30, 40] 4

/-! ### Arithmetic helpers for C truncating division -/

/-- The executable `deadZoneFactorOf` computes the floor of the rational
`1023 * p / 100`, i.e. the truncation of the source's `float` computation for
nonnegative percentages. -/
lemma deadZoneFactorOf_eq_floor (p : ℚ) :
    deadZoneFactorOf p = ⌊(1023 : ℚ) * p / 100⌋ := by
  unfold deadZoneFactorOf
  rw [show MAX_ANALOG_POT_READING = (1023 : ℤ) from rfl]
  rw [← Rat.floor_intCast_div_natCast (1023 * p.num) (100 * p.den)]
  congr 1
  have hden : ((p.den : ℚ)) ≠ 0 := by exact_mod_cast p.den_nz
  have h := Rat.num_div_den p
  have hnum : (p.num : ℚ) = p * p.den := (div_eq_iff hden).mp h
  push_cast
  field_simp
  rw [hnum]
  ring

/-- Truncating division by a positive divisor, nonnegative numerator: upper
bound from a bound on the numerator. -/
lemma tdiv_le_of_le_mul (a b k : ℤ) (ha : 0 ≤ a) (hb : 0 < b) (h : a ≤ b * k) :
    Int.tdiv a b ≤ k := by
  rw [Int.tdiv_eq_ediv ha hb.le]
  have h2 : a < (k + 1) * b := by nlinarith
  have h3 := (Int.ediv_lt_iff_lt_mul hb).mpr h2
  omega

/-- Truncating division by a positive divisor: lower bound from a bound on the
numerator (for a nonnegative target bound). -/
lemma le_tdiv_of_mul_le (a b k : ℤ) (hk : 0 ≤ k) (hb : 0 < b) (h : b * k ≤ a) :
    k ≤ Int.tdiv a b := by
  have ha : 0 ≤ a := le_trans (mul_nonneg hb.le hk) h
  rw [Int.tdiv_eq_ediv ha hb.le]
  exact (Int.le_ediv_iff_mul_le hb).mpr (by nlinarith)

/-- Truncating division of a numerator at or below `-b` by positive `b` is at
most `-1`. -/
lemma tdiv_le_neg_one (a b : ℤ) (hb : 0 < b) (h : a ≤ -b) : Int.tdiv a b ≤ -1 := by
  have h1 : Int.tdiv a b = -Int.tdiv (-a) b := by rw [← Int.neg_tdiv, neg_neg]
  have h2 : 1 ≤ Int.tdiv (-a) b := le_tdiv_of_mul_le (-a) b 1 one_pos.le hb (by omega)
  omega

/-! ### Clamping -/

/-- `constrain` at or below the lower bound yields the lower bound. -/
lemma constrain_eq_low (x a b : ℤ) (hx : x ≤ a) (hab : a ≤ b) : constrain x a b = a := by
  unfold constrain; split_ifs <;> omega

/-- `constrain` at or above the upper bound yields the upper bound. -/
lemma constrain_eq_high (x a b : ℤ) (hx : b ≤ x) (hab : a ≤ b) : constrain x a b = b := by
  unfold constrain; split_ifs <;> omega

/-- `constrain` inside the bounds is the identity. -/
lemma constrain_eq_self (x a b : ℤ) (h1 : a ≤ x) (h2 : x ≤ b) : constrain x a b = x := by
  unfold constrain; split_ifs <;> omega

/-! ### Dead-zone compensation case analysis -/

/-- At or below the dead zone, the compensation line of `scan` yields 0. -/
lemma compensate_of_le (d v : ℤ) (hd : 0 ≤ d) (hdd : 2 * d < MAX_ANALOG_POT_READING)
    (h : v ≤ d) : compensate d v = 0 := by
  simp only [MAX_ANALOG_POT_READING] at hdd
  simp only [compensate, map, MAX_ANALOG_POT_READING]
  rcases eq_or_lt_of_le h with rfl | hlt
  · have h0 : (v - v) * (1023 - 0) = 0 := by ring
    rw [h0, Int.zero_tdiv]
    exact constrain_eq_self 0 0 1023 le_rfl (by omega)
  · have hb : (0:ℤ) < 1023 - d - d := by omega
    have hnum : (v - d) * (1023 - 0) ≤ -(1023 - d - d) := by nlinarith
    have hq := tdiv_le_neg_one _ _ hb hnum
    exact constrain_eq_low _ 0 1023 (by omega) (by omega)

/-- At or above the upper dead zone, the compensation line of `scan` yields
the full scale. -/
lemma compensate_of_ge (d v : ℤ) (hd : 0 ≤ d) (hdd : 2 * d < MAX_ANALOG_POT_READING)
    (h : MAX_ANALOG_POT_READING - d ≤ v) : compensate d v = MAX_ANALOG_POT_READING := by
  simp only [MAX_ANALOG_POT_READING] at hdd h
  simp only [compensate, map, MAX_ANALOG_POT_READING]
  have hb : (0:ℤ) < 1023 - d - d := by omega
  have hnum : (1023 - d - d) * 1023 ≤ (v - d) * (1023 - 0) := by nlinarith
  have hq := le_tdiv_of_mul_le _ _ 1023 (by omega) hb hnum
  exact constrain_eq_high _ 0 1023 (by omega) (by omega)

/-- Inside the live range, the compensation line of `scan` is the bare linear
remap: the outer `constrain` never fires. -/
lemma compensate_of_mid (d v : ℤ) (hd : 0 ≤ d) (hdd : 2 * d < MAX_ANALOG_POT_READING)
    (h1 : d ≤ v) (h2 : v ≤ MAX_ANALOG_POT_READING - d) :
    compensate d v = map v d (MAX_ANALOG_POT_READING - d) 0 MAX_ANALOG_POT_READING := by
  simp only [MAX_ANALOG_POT_READING] at hdd h2
  simp only [compensate, map, MAX_ANALOG_POT_READING]
  have hb : (0:ℤ) < 1023 - d - d := by omega
  have hq0 : 0 ≤ Int.tdiv ((v - d) * (1023 - 0)) (1023 - d - d) :=
    Int.tdiv_nonneg (by nlinarith) (by omega)
  have hq1 : Int.tdiv ((v - d) * (1023 - 0)) (1023 - d - d) ≤ 1023 :=
    tdiv_le_of_le_mul _ _ 1023 (by nlinarith) hb (by nlinarith)
  exact constrain_eq_self _ 0 1023 (by omega) (by omega)

/-- Below the dead zone, the spec's clamp-then-remap description yields 0. -/
lemma specCompensate_of_le (d v : ℤ) (hd : 0 ≤ d) (hdd : 2 * d < MAX_ANALOG_POT_READING)
    (h : v ≤ d) : specCompensate d v = 0 := by
  simp only [MAX_ANALOG_POT_READING] at hdd
  simp only [specCompensate, MAX_ANALOG_POT_READING]
  rw [constrain_eq_low v d (1023 - d) h (by omega)]
  simp only [map]
  have h0 : (d - d) * (1023 - 0) = 0 := by ring
  rw [h0, Int.zero_tdiv]
  norm_num

/-- Above the dead zone, the spec's clamp-then-remap description yields the
full scale. -/
lemma specCompensate_of_ge (d v : ℤ) (hd : 0 ≤ d) (hdd : 2 * d < MAX_ANALOG_POT_READING)
    (h : MAX_ANALOG_POT_READING - d ≤ v) : specCompensate d v = MAX_ANALOG_POT_READING := by
  simp only [MAX_ANALOG_POT_READING] at hdd h
  simp only [specCompensate, MAX_ANALOG_POT_READING]
  rw [constrain_eq_high v d (1023 - d) h (by omega)]
  simp only [map]
  have h0 : (1023 - d - d) * (1023 - 0) = (1023 - d - d) * 1023 := by ring
  rw [h0, Int.mul_tdiv_cancel_left 1023 (by omega : (1023:ℤ) - d - d ≠ 0)]
  norm_num

/-- Inside the live range, the spec's clamp is the identity, leaving the bare
remap. -/
lemma specCompensate_of_mid (d v : ℤ) (hd : 0 ≤ d) (hdd : 2 * d < MAX_ANALOG_POT_READING)
    (h1 : d ≤ v) (h2 : v ≤ MAX_ANALOG_POT_READING - d) :
    specCompensate d v = map v d (MAX_ANALOG_POT_READING - d) 0 MAX_ANALOG_POT_READING := by
  unfold specCompensate
  rw [constrain_eq_self v d (MAX_ANALOG_POT_READING - d) h1 h2]

/-- The compensation actually computed by `scan` (remap, then clamp the
result) agrees with the spec's description (clamp the input, then remap) for
every integer input, whenever the dead-zone width satisfies the spec's own
sanity invariant `0 ≤ dead_zone_width < raw_full_scale / 2`. -/
lemma compensate_eq_spec (d v : ℤ) (hd : 0 ≤ d) (hdd : 2 * d < MAX_ANALOG_POT_READING) :
    compensate d v = specCompensate d v := by
  have hM : MAX_ANALOG_POT_READING = 1023 := rfl
  rcases le_or_lt v d with h | h
  · rw [compensate_of_le d v hd hdd h, specCompensate_of_le d v hd hdd h]
  · rcases le_or_lt (MAX_ANALOG_POT_READING - d) v with h2 | h2
    · rw [compensate_of_ge d v hd hdd h2, specCompensate_of_ge d v hd hdd h2]
    · rw [compensate_of_mid d v hd hdd h.le h2.le,
          specCompensate_of_mid d v hd hdd h.le h2.le]

/-- Remapping the bottom of the full scale onto `[mn, mx]` yields `mn`. -/
lemma map_bot (mn mx : ℤ) : map 0 0 MAX_ANALOG_POT_READING mn mx = mn := by
  simp only [map, MAX_ANALOG_POT_READING]
  have h0 : ((0:ℤ) - 0) * (mx - mn) = 0 := by ring
  rw [h0, Int.zero_tdiv]
  ring

/-- Remapping the top of the full scale onto `[mn, mx]` yields `mx`. -/
lemma map_top (mn mx : ℤ) : map MAX_ANALOG_POT_READING 0 MAX_ANALOG_POT_READING mn mx = mx := by
  simp only [map, MAX_ANALOG_POT_READING]
  have h0 : ((1023:ℤ) - 0) * (mx - mn) = 1023 * (mx - mn) := by ring
  have h1 : ((1023:ℤ) - 0) = 1023 := by ring
  rw [h0, h1, Int.mul_tdiv_cancel_left (mx - mn) (by norm_num : (1023:ℤ) ≠ 0)]
  ring

/-- C1: for every accepted (post-debounce) raw average `r` in `[0, 1023]`,
`scan()` computes the output by clamping `r` into
`[dead_zone_width, 1023 - dead_zone_width]`, linearly remapping that sub-range
onto `[0, 1023]`, then linearly remapping the result onto
`[output_min, output_max]`, with truncating integer division throughout (the
dead-zone width obeying the data model's invariant
`0 ≤ dead_zone_width < raw_full_scale / 2`); in particular, with
`output_min = 0`, `output_max = 127`, `dead_zone_percent = 0`,
`sample_count = 3` and raw samples `[500, 500, 500]`, the accepted average is
500 and the mapped output is 62. -/
theorem scan_output_clamps_then_remaps (d mn mx r : ℤ)
    (hr0 : 0 ≤ r) (hr1 : r ≤ MAX_ANALOG_POT_READING)
    (hd : 0 ≤ d) (hdd : 2 * d < MAX_ANALOG_POT_READING) :
    scanValue d mn mx r = specOutput d mn mx r ∧
    (aRead 0 5 [500, 500, 500]).1 = 500 ∧
    scanValue 0 0 127 500 = 62 := by
  refine ⟨?_, by decide, by decide⟩
  unfold scanValue specOutput
  rw [compensate_eq_spec d r hd hdd]

/-- Closed instance of C1 at the claim's concrete scenario. -/
theorem scan_output_clamps_then_remaps_witness :
    scanValue 0 0 127 500 = specOutput 0 0 127 500 ∧ scanValue 0 0 127 500 = 62 :=
  ⟨(scan_output_clamps_then_remaps 0 0 127 500 (by decide) (by decide) (by decide)
      (by decide)).1,
   (scan_output_clamps_then_remaps 0 0 127 500 (by decide) (by decide) (by decide)
      (by decide)).2.2⟩

/-- C4 as stated is false: with `dead_zone_percent = 60` (allowed by the
claim's range `[0, 100)`) and raw average `0 ≤ 1023 * 60/100`, the claimed
output is `output_min = 0`, but `scan`'s computation yields `output_max = 127`
— once `dead_zone_width` exceeds half the scale, the remap interval inverts
and the truncating division flips sign. -/
theorem deadzone_extremes_counterexample :
    (0 : ℚ) ≤ 60 ∧ (60 : ℚ) < 100 ∧
    ((0 : ℤ) : ℚ) ≤ 1023 * 60 / 100 ∧
    scanValue (deadZoneFactorOf 60) 0 127 0 = 127 ∧
    scanValue (deadZoneFactorOf 60) 0 127 0 ≠ 0 := by
  have h : deadZoneFactorOf 60 = 613 := by decide
  refine ⟨by norm_num, by norm_num, by norm_num, ?_, ?_⟩ <;> rw [h] <;> decide

/-- C4 amended: restricted to `dead_zone_percent` in `[0, 50)` — exactly the
configurations satisfying the data model's invariant
`dead_zone_width < raw_full_scale / 2` — every raw average `r` in `[0, 1023]`
at or below `1023 * p/100` maps to `output_min`, and every `r` at or above
`1023 * (1 - p/100)` maps to `output_max`. -/
theorem deadzone_extremes (p : ℚ) (r mn mx : ℤ)
    (hp0 : 0 ≤ p) (hp1 : p < 50) (hr0 : 0 ≤ r) (hr1 : r ≤ 1023) :
    ((r : ℚ) ≤ 1023 * p / 100 → scanValue (deadZoneFactorOf p) mn mx r = mn) ∧
    (1023 * (1 - p / 100) ≤ (r : ℚ) → scanValue (deadZoneFactorOf p) mn mx r = mx) := by
  have hbridge := deadZoneFactorOf_eq_floor p
  have hd0 : 0 ≤ deadZoneFactorOf p := by
    rw [hbridge]
    exact Int.le_floor.mpr (by push_cast; positivity)
  have hd512 : deadZoneFactorOf p < 512 := by
    rw [hbridge]
    exact Int.floor_lt.mpr (by push_cast; nlinarith)
  have hdd : 2 * deadZoneFactorOf p < MAX_ANALOG_POT_READING := by
    have hM : MAX_ANALOG_POT_READING = 1023 := rfl
    omega
  constructor
  · intro h
    have hrd : r ≤ deadZoneFactorOf p := by
      rw [hbridge]
      exact Int.le_floor.mpr h
    unfold scanValue
    rw [compensate_of_le _ r hd0 hdd hrd]
    exact map_bot mn mx
  · intro h
    have hrd : MAX_ANALOG_POT_READING - deadZoneFactorOf p ≤ r := by
      have h2 : (1023 : ℤ) - r ≤ deadZoneFactorOf p := by
        rw [hbridge]
        refine Int.le_floor.mpr ?_
        push_cast
        linarith
      have hM : MAX_ANALOG_POT_READING = 1023 := rfl
      omega
    unfold scanValue
    rw [compensate_of_ge _ r hd0 hdd hrd]
    exact map_top mn mx

/-- Closed instance of the amended C4: with a 10% dead zone, raw average 50
(below the dead zone) maps to `output_min = 0`, and raw average 1000 (above
the upper dead zone) maps to `output_max = 127`. -/
theorem deadzone_extremes_witness :
    scanValue (deadZoneFactorOf 10) 0 127 50 = 0 ∧
    scanValue (deadZoneFactorOf 10) 0 127 1000 = 127 :=
  ⟨(deadzone_extremes 10 50 0 127 (by norm_num) (by norm_num) (by norm_num)
      (by norm_num)).1 (by norm_num),
   (deadzone_extremes 10 1000 0 127 (by norm_num) (by norm_num) (by norm_num)
      (by norm_num)).2 (by norm_num)⟩

/-! ### The sampling loop: total, batch minimum, batch maximum -/

/-- The accumulator loop of `aRead` splits into the running total and the two
running extremum folds. -/
lemma readLoop_split (xs : List ℤ) (t a b : ℤ) :
    xs.foldl readStep (t, a, b) =
      (t + xs.sum,
       xs.foldl (fun acc r => if r < acc then r else acc) a,
       xs.foldl (fun acc r => if r > acc then r else acc) b) := by
  induction xs generalizing t a b with
  | nil => simp
  | cons x rest ih =>
      simp only [List.foldl_cons, List.sum_cons, readStep, ih]
      congr 1
      omega

/-- Folding the running-minimum update over elements that all dominate the
initial value returns the initial value. -/
lemma foldl_low_of_le (xs : List ℤ) : ∀ a, (∀ x ∈ xs, a ≤ x) →
    xs.foldl (fun acc r => if r < acc then r else acc) a = a := by
  induction xs with
  | nil => intro a _; rfl
  | cons x rest ih =>
      intro a h
      have hx : a ≤ x := h x (List.mem_cons_self x rest)
      simp only [List.foldl_cons]
      rw [if_neg (by omega)]
      exact ih a fun y hy => h y (List.mem_cons_of_mem x hy)

/-- Folding the running-minimum update attains the batch minimum whenever that
minimum is a member no larger than the initial value. -/
lemma foldl_low_mem (xs : List ℤ) : ∀ a m, m ∈ xs → (∀ x ∈ xs, m ≤ x) → m ≤ a →
    xs.foldl (fun acc r => if r < acc then r else acc) a = m := by
  induction xs with
  | nil =>
      intro a m hm _ _
      exact absurd hm (List.not_mem_nil m)
  | cons x rest ih =>
      intro a m hm hlow ham
      simp only [List.foldl_cons]
      rcases List.mem_cons.mp hm with rfl | hmr
      · have hax : (if m < a then m else a) = m := by
          by_cases hc : m < a
          · rw [if_pos hc]
          · rw [if_neg hc]; omega
        rw [hax]
        exact foldl_low_of_le rest m fun y hy => hlow y (List.mem_cons_of_mem m hy)
      · have hmx : m ≤ x := hlow x (List.mem_cons_self x rest)
        refine ih _ m hmr (fun y hy => hlow y (List.mem_cons_of_mem x hy)) ?_
        by_cases hc : x < a
        · rw [if_pos hc]; exact hmx
        · rw [if_neg hc]; exact ham

/-- Folding the running-maximum update over elements that all lie below the
initial value returns the initial value. -/
lemma foldl_high_of_le (xs : List ℤ) : ∀ b, (∀ x ∈ xs, x ≤ b) →
    xs.foldl (fun acc r => if r > acc then r else acc) b = b := by
  induction xs with
  | nil => intro b _; rfl
  | cons x rest ih =>
      intro b h
      have hx : x ≤ b := h x (List.mem_cons_self x rest)
      simp only [List.foldl_cons]
      rw [if_neg (by omega)]
      exact ih b fun y hy => h y (List.mem_cons_of_mem x hy)

/-- Folding the running-maximum update attains the batch maximum whenever that
maximum is a member no smaller than the initial value. -/
lemma foldl_high_mem (xs : List ℤ) : ∀ b M, M ∈ xs → (∀ x ∈ xs, x ≤ M) → b ≤ M →
    xs.foldl (fun acc r => if r > acc then r else acc) b = M := by
  induction xs with
  | nil =>
      intro b M hM _ _
      exact absurd hM (List.not_mem_nil M)
  | cons x rest ih =>
      intro b M hM hhigh hbM
      simp only [List.foldl_cons]
      rcases List.mem_cons.mp hM with rfl | hMr
      · have hbx : (if M > b then M else b) = M := by
          by_cases hc : M > b
          · rw [if_pos hc]
          · rw [if_neg hc]; omega
        rw [hbx]
        exact foldl_high_of_le rest M fun y hy => hhigh y (List.mem_cons_of_mem M hy)
      · have hxM : x ≤ M := hhigh x (List.mem_cons_self x rest)
        refine ih _ M hMr (fun y hy => hhigh y (List.mem_cons_of_mem x hy)) ?_
        by_cases hc : x > b
        · rw [if_pos hc]; exact hxM
        · rw [if_neg hc]; exact hbM

/-- On a batch of in-range samples, `readLoop` computes the total, the batch
minimum, and the batch maximum: the sentinels 1024 and -1 are never returned. -/
lemma readLoop_eq (xs : List ℤ) (m M : ℤ)
    (hrange : ∀ x ∈ xs, 0 ≤ x ∧ x ≤ 1023)
    (hm : m ∈ xs) (hlow : ∀ x ∈ xs, m ≤ x)
    (hM : M ∈ xs) (hhigh : ∀ x ∈ xs, x ≤ M) :
    readLoop xs = (xs.sum, m, M) := by
  unfold readLoop
  rw [readLoop_split]
  have h1 : m ≤ 1024 := by have := (hrange m hm).2; omega
  have h2 : -1 ≤ M := by have := (hrange M hM).1; omega
  rw [foldl_low_mem xs 1024 m hm hlow h1, foldl_high_mem xs (-1) M hM hhigh h2]
  simp

/-- C2: on every batch of `sample_count ≥ 3` in-range raw samples, the
averaging routine returns `(sum - one minimum occurrence - one maximum
occurrence) / (sample_count - 2)` with truncating division; equivalently, for
every batch with a value strictly between the batch extremes, exactly one
occurrence of the lowest and one of the highest sample are excluded from the
mean. -/
theorem aRead_average_formula (xs : List ℤ) (m M : ℤ)
    (hlen : 3 ≤ xs.length)
    (hrange : ∀ x ∈ xs, 0 ≤ x ∧ x ≤ 1023)
    (hm : m ∈ xs) (hlow : ∀ x ∈ xs, m ≤ x)
    (hM : M ∈ xs) (hhigh : ∀ x ∈ xs, x ≤ M) :
    currentAverage xs = Int.tdiv (xs.sum - (m + M)) ((xs.length : ℤ) - 2) ∧
    ((∃ x ∈ xs, m < x ∧ x < M) →
      currentAverage xs = Int.tdiv (((xs.erase m).erase M).sum) ((xs.length : ℤ) - 2)) := by
  have h1 : currentAverage xs = Int.tdiv (xs.sum - (m + M)) ((xs.length : ℤ) - 2) := by
    unfold currentAverage
    rw [readLoop_eq xs m M hrange hm hlow hM hhigh]
  refine ⟨h1, fun hex => ?_⟩
  have hmM : m ≠ M := by
    obtain ⟨x, _, h3, h4⟩ := hex
    omega
  have hMe : M ∈ xs.erase m := (List.mem_erase_of_ne (Ne.symm hmM)).mpr hM
  have e1 : (xs.erase m).sum = xs.sum - m := by
    have hp := (List.perm_cons_erase hm).sum_eq
    simp only [List.sum_cons] at hp
    omega
  have e2 : ((xs.erase m).erase M).sum = (xs.erase m).sum - M := by
    have hp := (List.perm_cons_erase hMe).sum_eq
    simp only [List.sum_cons] at hp
    omega
  rw [h1, e2, e1]
  congr 1
  omega

/-- Closed instance of C2 on the batch `[500, 400, 600]`: the single lowest
(400) and single highest (600) samples are dropped and the remaining 500 is
the average. -/
theorem aRead_average_formula_witness :
    currentAverage [500, 400, 600] = 500 ∧
    (([500, 400, 600] : List ℤ).erase 400).erase 600 = [500] := by
  have h := aRead_average_formula [500, 400, 600] 400 600 (by decide) (by decide)
    (by decide) (by decide) (by decide) (by decide)
  exact ⟨by rw [h.1]; decide, by decide⟩

/-- C3's idempotence consequence, as stated, is false on the code: the
debounce compares the fresh average against the persisted accepted value, not
against the previous call's computed average.  From a fresh static
(`lastAverage = 0`, default threshold 5), a batch averaging 4 is rejected and
returns 0, and a following batch averaging 8 — within threshold of the first
computed average, `|4 - 8| < 5` — is nevertheless accepted (`|8 - 0| ≥ 5`)
and returns 8 ≠ 0: the two consecutive calls do not yield identical accepted
output even though their computed averages lie within the threshold of each
other. -/
theorem aRead_debounce_idempotence_counterexample :
    |currentAverage [4, 4, 4] - currentAverage [8, 8, 8]| < 5 ∧
    (aRead 0 5 [4, 4, 4]).1 = 0 ∧
    (aRead (aRead 0 5 [4, 4, 4]).2 5 [8, 8, 8]).1 = 8 ∧
    (aRead (aRead 0 5 [4, 4, 4]).2 5 [8, 8, 8]).1 ≠ (aRead 0 5 [4, 4, 4]).1 :=
  ⟨by decide, by decide, by decide, by decide⟩

/-- C3 amended: when the freshly computed average is within
`debounce_threshold` of the persisted last accepted average, `aRead` returns
the persisted value and leaves the persisted state unchanged; otherwise it
stores and returns the new average.  Consequently two consecutive calls where
the second call's computed average lies within `debounce_threshold` of the
first call's accepted output yield that same accepted output on the second
call. -/
theorem aRead_debounce (la th : ℤ) (xs ys : List ℤ) :
    (|currentAverage xs - la| < th → aRead la th xs = (la, la)) ∧
    (¬ |currentAverage xs - la| < th →
      aRead la th xs = (currentAverage xs, currentAverage xs)) ∧
    (|currentAverage ys - (aRead la th xs).2| < th →
      (aRead (aRead la th xs).2 th ys).1 = (aRead la th xs).1) := by
  have key : ∀ (l : ℤ) (zs : List ℤ), |currentAverage zs - l| < th →
      aRead l th zs = (l, l) := by
    intro l zs hh
    unfold aRead
    rw [if_pos hh]
  have keyn : ∀ (l : ℤ) (zs : List ℤ), ¬ |currentAverage zs - l| < th →
      aRead l th zs = (currentAverage zs, currentAverage zs) := by
    intro l zs hh
    unfold aRead
    rw [if_neg hh]
  have snd_eq_fst : (aRead la th xs).1 = (aRead la th xs).2 := by
    simp only [aRead]
    split <;> rfl
  refine ⟨key la xs, keyn la xs, fun h => ?_⟩
  rw [key _ ys h]
  exact snd_eq_fst.symm

/-- Closed instance of the amended C3: after an accepted average of 500, a
batch averaging 498 (within the default threshold 5 of the accepted output)
returns 500 again. -/
theorem aRead_debounce_witness :
    (aRead (aRead 0 5 [500, 500, 500]).2 5 [498, 498, 498]).1 =
      (aRead 0 5 [500, 500, 500]).1 :=
  (aRead_debounce 0 5 [500, 500, 500] [498, 498, 498]).2.2 (by decide)

/-- C6: both `INIT` overloads derive the status byte as
`175 + constrain(ch, 1, 16)` = `0xAF + clamp(channel, 1, 16)`, silently
saturating out-of-range channels; in particular channel 20 yields
`0xAF + 16 = 0xBF = 191`. -/
theorem init_status_byte (m : ATMIDICCPOT) (ch cc : ℤ) (values : List ℤ) (count : ℤ) :
    (m.INIT ch cc).mesg = 175 + constrain ch 1 16 ∧
    (m.INITtable ch cc values count).mesg = 175 + constrain ch 1 16 ∧
    (m.INIT 20 cc).mesg = 191 ∧
    (m.INITtable 20 cc values count).mesg = 191 :=
  ⟨rfl, rfl,
   by show (175 : ℤ) + constrain 20 1 16 = 191; decide,
   by show (175 : ℤ) + constrain 20 1 16 = 191; decide⟩

/-- C7: in lookup-table mode with `count ≥ 1` entries, the index computed for
a mapped value `v` in `[0, 127]` is `⌊v * (count - 1) / 127⌋` (floor and
truncating division agree here since both operands are nonnegative), it lies
within `[0, count - 1]`, and the payload is the table entry at that index. -/
theorem table_lookup_index (vals : List ℤ) (count v : ℤ)
    (h1 : 1 ≤ count) (h255 : count ≤ 255)
    (hv0 : 0 ≤ v) (hv1 : v ≤ 127) :
    tableIndex count v = v * (count - 1) / 127 ∧
    0 ≤ tableIndex count v ∧ tableIndex count v ≤ count - 1 ∧
    ∀ m : ATMIDICCPOT, m.valueType = true → m.count = count → m.varr = vals →
      midiPayload m v = vals.getD (tableIndex count v).toNat 0 := by
  have ha : 0 ≤ v * (count - 1) := by nlinarith
  have hediv := Int.tdiv_eq_ediv ha (by norm_num : (0:ℤ) ≤ 127)
  have hq0 : 0 ≤ v * (count - 1) / 127 := Int.ediv_nonneg ha (by norm_num)
  have hqlt : v * (count - 1) / 127 < count :=
    (Int.ediv_lt_iff_lt_mul (by norm_num)).mpr (by nlinarith)
  have hqle : v * (count - 1) / 127 ≤ count - 1 := by linarith
  have hq256 : v * (count - 1) / 127 < 256 := by linarith
  have hmain : tableIndex count v = v * (count - 1) / 127 := by
    unfold tableIndex toByte map
    rw [show (v - 0) * (count - 1 - 0) = v * (count - 1) from by ring,
        show (127 : ℤ) - 0 = 127 from by norm_num, hediv, add_zero]
    exact Int.emod_eq_of_lt hq0 hq256
  refine ⟨hmain, hmain ▸ hq0, hmain ▸ hqle, ?_⟩
  intro m hvt hc hv
  simp only [midiPayload, hvt, if_true, hc, hv]

/-- Closed instance of C7: table `[10, 20, 30, 40]` and mapped value 100 give
index 2 and payload 30. -/
theorem table_lookup_index_witness :
    tableIndex 4 100 = 2 ∧ midiPayload exampleTablePot 100 = 30 := by
  have h := table_lookup_index [10, 20, 30, 40] 4 100 (by decide) (by decide)
    (by decide) (by decide)
  have h2 := h.2.2.2 exampleTablePot (by decide) (by decide) (by decide)
  refine ⟨by decide, ?_⟩
  rw [h2]
  decide

/-- C5: on an accepted change, the adapter override writes exactly the three
bytes `_mesg`, `_cc`, `constrain(_value, 0, 127)` to the sink in that order
and, when a handler is registered, invokes it once with the post-table-lookup
payload as the new value and the pre-change mapped reading (as a byte) as the
old value; a scan that produces no change writes zero bytes and makes no
handler call. -/
theorem midi_changed_three_bytes (m : ATMIDICCPOT) (la : ℤ) (xs : List ℤ) :
    (midiScanValue m la xs ≠ m.pot.lastReading →
      (m.scan la xs).bytes =
        [m.mesg, m.cc,
         constrain (midiPayload m (toByte (midiScanValue m la xs))) 0 127] ∧
      (m.pot.hasHandler = true →
        (m.scan la xs).handlerCalls =
          [(midiPayload m (toByte (midiScanValue m la xs)),
            toByte m.pot.lastReading)])) ∧
    (midiScanValue m la xs = m.pot.lastReading →
      (m.scan la xs).bytes = [] ∧ (m.scan la xs).handlerCalls = []) := by
  constructor
  · intro hne
    simp only [midiScanValue, scanValue] at hne
    constructor
    · simp only [ATMIDICCPOT.scan, midiScanValue, scanValue]
      rw [if_pos hne]
      simp only [ATMIDICCPOT.changed, midiPayload]
      by_cases hh : m.pot.hasHandler <;> simp [hh]
    · intro hh
      simp only [ATMIDICCPOT.scan, midiScanValue, scanValue]
      rw [if_pos hne]
      simp only [ATMIDICCPOT.changed, midiPayload]
      simp [hh]
  · intro heq
    simp only [midiScanValue, scanValue] at heq
    constructor <;>
      · simp only [ATMIDICCPOT.scan]
        rw [if_neg (not_not_intro heq)]

/-- Closed instance of C5: the example adapter (channel 1, controller 7,
registered handler) on its first accepted change emits exactly
`[0xB0, 7, 61] = [176, 7, 61]` and calls the handler with the payload 61 and
the byte-truncated sentinel 255. -/
theorem midi_changed_three_bytes_witness :
    (exampleMidiPot.scan 0 [500, 500, 500]).bytes = [176, 7, 61] ∧
    (exampleMidiPot.scan 0 [500, 500, 500]).handlerCalls = [(61, 255)] := by
  have h := (midi_changed_three_bytes exampleMidiPot 0 [500, 500, 500]).1 (by decide)
  have h2 := h.2 (by decide)
  exact ⟨by rw [h.1]; decide, by rw [h2]; decide⟩

/-- C8: the base `changed` hook sets the changed flag; with a registered
handler it invokes it once with `(newValue, oldValue)` and immediately clears
the flag, with no handler the flag stays set; `reset()` clears the flag; and a
scan whose mapped value is unchanged leaves the whole instance state — the
flag included — untouched. -/
theorem changed_flag_protocol (p : ATPOT) (n o la : ℤ) (xs : List ℤ) :
    (p.hasHandler = true →
      (p.changed n o).1.hasChanged = false ∧ (p.changed n o).2 = [(n, o)]) ∧
    (p.hasHandler = false →
      (p.changed n o).1.hasChanged = true ∧ (p.changed n o).2 = []) ∧
    p.reset.hasChanged = false ∧
    (scanValue p.deadZoneFactor p.minVal p.maxVal
        (aRead la p.debounceThreshold xs).1 = p.lastReading →
      (p.scan la xs).state = p) := by
  refine ⟨fun hh => ?_, fun hh => ?_, rfl, fun heq => ?_⟩
  · simp [ATPOT.changed, ATPOT.reset, hh]
  · simp [ATPOT.changed, hh]
  · simp only [scanValue] at heq
    simp only [ATPOT.scan]
    rw [if_neg (not_not_intro heq)]

/-- Closed instance of C8: a handler-bearing conditioner ends a change with
the flag clear and one handler call; a handler-free one ends with the flag
set and no call; a scan that reproduces the stored reading leaves the state
untouched. -/
theorem changed_flag_protocol_witness :
    (((ATPOT.mkWithHandler 0 0 127 0).changed 5 255).1.hasChanged = false ∧
      ((ATPOT.mkWithHandler 0 0 127 0).changed 5 255).2 = [(5, 255)]) ∧
    (((ATPOT.mk4 0 0 127 0).changed 5 255).1.hasChanged = true ∧
      ((ATPOT.mk4 0 0 127 0).changed 5 255).2 = []) ∧
    ({ ATPOT.mk4 0 0 127 0 with lastReading := 62 }.scan 0 [500, 500, 500]).state =
      { ATPOT.mk4 0 0 127 0 with lastReading := 62 } :=
  ⟨(changed_flag_protocol (ATPOT.mkWithHandler 0 0 127 0) 5 255 0 []).1 (by decide),
   (changed_flag_protocol (ATPOT.mk4 0 0 127 0) 5 255 0 []).2.1 (by decide),
   (changed_flag_protocol { ATPOT.mk4 0 0 127 0 with lastReading := 62 } 5 255 0
      [500, 500, 500]).2.2.2 (by decide)⟩

/-- C9 fails on the code as written: the debounce cell behind `ATPOT::aRead`
is a function-local `static`, one per process, not one per instance.  After
instance B accepts the average 500, instance A's very first averaging call on
a batch averaging 498 is debounced against B's 500 and returns 500 — although
from the same initial world, with no B activity, the identical call returns
498 — while A's own instance state was never touched by B.  The spec itself
flags this as the latent shared-static bug of the original. -/
theorem aRead_shared_static_cross_talk :
    (exampleWorld.scanB [500, 500, 500]).potA = exampleWorld.potA ∧
    (aRead (exampleWorld.scanB [500, 500, 500]).sharedLastAverage 5
        [498, 498, 498]).1 = 500 ∧
    (aRead exampleWorld.sharedLastAverage 5 [498, 498, 498]).1 = 498 := by
  refine ⟨by decide, by decide, by decide⟩

/-- C10: on a freshly constructed conditioner (stored reading initialized to
the sentinel -1) with a registered handler, any first scan whose mapped value
is not -1 is an accepted change: the new value is stored and the handler
receives old value `toByte (-1) = 255`. -/
theorem first_scan_old_value (pin mn mx : ℤ) (q : ℚ) (la : ℤ) (xs : List ℤ)
    (hne : scanValue (deadZoneFactorOf q) mn mx (aRead la 5 xs).1 ≠ -1) :
    ((ATPOT.mkWithHandler pin mn mx q).scan la xs).state.lastReading =
      scanValue (deadZoneFactorOf q) mn mx (aRead la 5 xs).1 ∧
    ((ATPOT.mkWithHandler pin mn mx q).scan la xs).handlerCalls =
      [(toByte (scanValue (deadZoneFactorOf q) mn mx (aRead la 5 xs).1), 255)] ∧
    toByte (-1) = 255 := by
  simp only [scanValue] at hne
  simp only [ATPOT.scan, ATPOT.mkWithHandler, ATPOT.mk4, ATPOT.setChangeHandler,
    scanValue]
  rw [if_pos hne]
  simp only [ATPOT.changed, ATPOT.reset]
  refine ⟨rfl, ?_, by decide⟩
  simp
  rfl

/-- Closed instance of C10: a fresh full-range handler-bearing conditioner
mapping `[500, 500, 500]` to 62 fires its first change with old value 255. -/
theorem first_scan_old_value_witness :
    ((ATPOT.mkWithHandler 0 0 127 0).scan 0 [500, 500, 500]).handlerCalls =
      [(62, 255)] := by
  have h := first_scan_old_value 0 0 127 0 0 [500, 500, 500] (by decide)
  rw [h.2.1]
  decide
